import Mathlib

/-!
Verification development for the `ai-debugger-mcp` server (`src/server.ts`).

Strings are modelled as lists of characters (`Str := List Char`).  The
JavaScript regular expressions used by the server are all concatenations of
character-class atoms (`*` / `+`, greedy) and literal fragments, with either
a multiline `^` anchor, a whole-string `^...$` anchor, or no anchor.  We embed
that fragment of regex semantics as a small backtracking matcher (`matchSeq`):
greedy atoms consume as much as possible and backtrack, literals are exact,
and a scan wrapper tries start positions left to right exactly as
`RegExp.exec` does.  The server functions (`parseError`, `summarizeStack`,
`truncate`, `renderSummary`, and the `debug` tool handler) are then translated
directly on top of these matchers.
-/

abbrev Str := List Char

/-- JS `\w` character class: `[A-Za-z0-9_]`. -/
def isWordChar (c : Char) : Bool := c.isAlpha || c.isDigit || c == '_'

/-- The class `[\w.]` used by the family-A anchor regex. -/
def isWordDot (c : Char) : Bool := isWordChar c || c == '.'

/-- JS `\s` restricted to the ASCII whitespace characters. -/
def isJsSpace (c : Char) : Bool :=
  c == ' ' || c == '\t' || c == '\n' || c == '\r' || c == '\x0b' || c == '\x0c'

/-- The class `[^\n]` (the regex `.` atom, and the explicit class in the anchor). -/
def isNotNewline (c : Char) : Bool := !(c == '\n')

/-- The class `[\s\S]` — any character. -/
def anyChar (_ : Char) : Bool := true

/-- The class `[^:\n]` used by the location regex. -/
def isPathChar (c : Char) : Bool := !(c == ':') && !(c == '\n')

/-- The class `[^\"]` used by the Python `File "..."` regex. -/
def isNotQuote (c : Char) : Bool := !(c == '"')

/-- First character of `[A-Za-z_][A-Za-z0-9_]*`. -/
def isPyIdentStart (c : Char) : Bool := c.isAlpha || c == '_'

/-- Continuation characters of `[A-Za-z_][A-Za-z0-9_]*`. -/
def isPyIdentChar (c : Char) : Bool := c.isAlpha || c.isDigit || c == '_'

/-- One atom of the regex fragment used by the server: a literal string,
a single character of a class, a greedy `class*`, or the `$` assertion.
A greedy `class+` is encoded as `one p` followed by `star p`, which has the
same backtracking order as the JS `+`. -/
inductive Piece where
  | lit : Str → Piece
  | one : (Char → Bool) → Piece
  | star : (Char → Bool) → Piece
  | eos : Piece

/-- Greedy backtracking for a starred class: try consuming `n` characters of
`s` first, and on failure of the continuation `k` retry with fewer, exactly
as a greedy `*` does. -/
def starTry (k : Str → Option (List Str × Str)) (s : Str) :
    Nat → Option (List Str × Str)
  | 0 =>
    match k s with
    | some (segs, r) => some (([] : Str) :: segs, r)
    | none => none
  | n + 1 =>
    match k (s.drop (n + 1)) with
    | some (segs, r) => some (s.take (n + 1) :: segs, r)
    | none => starTry k s n

/-- Match a sequence of pieces at the start of `s`, returning the consumed
segment of every piece together with the unconsumed remainder.  Greedy
pieces backtrack; the first (leftmost-greedy) solution is returned, which is
the JS regex semantics for this alternation-free fragment. -/
def matchSeq : List Piece → Str → Option (List Str × Str)
  | [], s => some ([], s)
  | Piece.eos :: ps, s =>
    match s with
    | [] =>
      match matchSeq ps [] with
      | some (segs, r) => some (([] : Str) :: segs, r)
      | none => none
    | _ :: _ => none
  | Piece.lit l :: ps, s =>
    if l.isPrefixOf s then
      match matchSeq ps (s.drop l.length) with
      | some (segs, r) => some (l :: segs, r)
      | none => none
    else none
  | Piece.one p :: ps, s =>
    match s with
    | [] => none
    | c :: t =>
      if p c then
        match matchSeq ps t with
        | some (segs, r) => some ([c] :: segs, r)
        | none => none
      else none
  | Piece.star p :: ps, s => starTry (fun t => matchSeq ps t) s (s.takeWhile p).length

/-- `RegExp.exec` without anchors: try every start position from left to
right and return the captures of the first match. -/
def execScan (ps : List Piece) : Str → Option (List Str)
  | [] =>
    match matchSeq ps [] with
    | some (segs, _) => some segs
    | none => none
  | c :: t =>
    match matchSeq ps (c :: t) with
    | some (segs, _) => some segs
    | none => execScan ps t

/-- Scan for the next line start (the position right after a `'\n'`) and try
the pattern there, continuing rightwards on failure. -/
def execLineStartsAux (ps : List Piece) : Str → Option (List Str)
  | [] => none
  | '\n' :: t =>
    match matchSeq ps t with
    | some (segs, _) => some segs
    | none => execLineStartsAux ps t
  | _ :: t => execLineStartsAux ps t

/-- `RegExp.exec` with the `m` flag and a leading `^`: the pattern is tried
at position 0 and after every newline, in left-to-right order. -/
def execLineStarts (ps : List Piece) (s : Str) : Option (List Str) :=
  match matchSeq ps s with
  | some (segs, _) => some segs
  | none => execLineStartsAux ps s

/-- Substring containment, as used by `RegExp.test` on a literal pattern. -/
def containsSub (pat : Str) : Str → Bool
  | [] => pat.isPrefixOf []
  | c :: t => pat.isPrefixOf (c :: t) || containsSub pat t

/-- JS `String.prototype.split("\n")`. -/
def splitLines : Str → List Str
  | [] => [[]]
  | '\n' :: t => [] :: splitLines t
  | c :: t =>
    match splitLines t with
    | l :: ls => (c :: l) :: ls
    | [] => [[c]]

/-- JS `String.prototype.trim` (ASCII whitespace). -/
def trimJs (s : Str) : Str :=
  ((s.dropWhile isJsSpace).reverse.dropWhile isJsSpace).reverse

/-- `Number(...)` on a string of decimal digits. -/
def natOfDigits (cs : Str) : Nat :=
  cs.foldl (fun n c => n * 10 + (c.toNat - '0'.toNat)) 0

/-- `/^(?<type>[\w.]*Error):\s*(?<message>[^\n]+)\n(?<stack>[\s\S]+)/m` -/
def nodePieces : List Piece :=
  [Piece.star isWordDot, Piece.lit "Error".data, Piece.lit ":".data,
   Piece.star isJsSpace, Piece.one isNotNewline, Piece.star isNotNewline,
   Piece.lit "\n".data, Piece.one anyChar, Piece.star anyChar]

/-- `/(\/[^:\n]+):(\d+):(\d+)/` -/
def locPieces : List Piece :=
  [Piece.lit "/".data, Piece.one isPathChar, Piece.star isPathChar,
   Piece.lit ":".data, Piece.one Char.isDigit, Piece.star Char.isDigit,
   Piece.lit ":".data, Piece.one Char.isDigit, Piece.star Char.isDigit]

/-- `/File \"([^\"]+)\", line (\d+)/` -/
def pyFilePieces : List Piece :=
  [Piece.lit "File \"".data, Piece.one isNotQuote, Piece.star isNotQuote,
   Piece.lit "\", line ".data, Piece.one Char.isDigit, Piece.star Char.isDigit]

/-- `/^(?<type>[A-Za-z_][A-Za-z0-9_]*):\s*(?<message>.*)$/` -/
def pyHeadPieces : List Piece :=
  [Piece.one isPyIdentStart, Piece.star isPyIdentChar, Piece.lit ":".data,
   Piece.star isJsSpace, Piece.star isNotNewline, Piece.eos]

/-- The literal tested by `/Traceback \(most recent call last\):/m`. -/
def tracebackMarker : Str := "Traceback (most recent call last):".data

/-- Runtime family of a parsed error record (`"node"` / `"python"` in the
source). -/
inductive Runtime where
  | node
  | python
deriving DecidableEq

/-- The structured error record built by `parseError`. -/
structure ErrorRecord where
  runtime : Runtime
  type : Str
  message : Str
  file : Option Str
  line : Option Nat
  column : Option Nat
  stack : Str
deriving DecidableEq

/-- Captures of the family-A anchor regex: type, message, stack. -/
def execNodeAnchor (s : Str) : Option (Str × Str × Str) :=
  match execLineStarts nodePieces s with
  | some [w, e, _, _, m1, m2, _, k1, k2] => some (w ++ e, m1 ++ m2, k1 ++ k2)
  | _ => none

/-- Captures of the location regex: file, line, column. -/
def execLoc (s : Str) : Option (Str × Nat × Nat) :=
  match execScan locPieces s with
  | some [sl, p1, p2, _, d1, d2, _, e1, e2] =>
    some (sl ++ p1 ++ p2, natOfDigits (d1 ++ d2), natOfDigits (e1 ++ e2))
  | _ => none

/-- First match of the `File "..."` regex on one line: file, line number. -/
def pyFileLine (line : Str) : Option (Str × Nat) :=
  match execScan pyFilePieces line with
  | some [_, f1, f2, _, d1, d2] => some (f1 ++ f2, natOfDigits (d1 ++ d2))
  | _ => none

/-- Anchored match of `^<identifier>: <message>$` on a single line. -/
def pyHeadMatch (line : Str) : Option (Str × Str) :=
  match matchSeq pyHeadPieces line with
  | some ([i1, i2, _, _, m, _], _) => some (i1 ++ i2, m)
  | _ => none

/-- The fold over all lines retaining the last `File "<path>", line <N>`
match, as the `for` loop over `lines` does. -/
def lastPyFileLine (lines : List Str) : Option (Str × Nat) :=
  lines.foldl
    (fun acc l =>
      match pyFileLine l with
      | some fl => some fl
      | none => acc)
    none

/-- `parseError` from `server.ts`: family-A (exception-style) anchor first,
then the family-B (traceback-style) branch, else no error. -/
def parseError : Option Str → Option ErrorRecord
  | none => none
  | some stderr =>
    if stderr.isEmpty then none
    else
      match execNodeAnchor stderr with
      | some (t, m, stk) =>
        some { runtime := Runtime.node, type := t, message := m,
               file := (execLoc stk).map (fun l => l.1),
               line := (execLoc stk).map (fun l => l.2.1),
               column := (execLoc stk).map (fun l => l.2.2),
               stack := stk }
      | none =>
        if containsSub tracebackMarker stderr then
          let lines := splitLines stderr
          let lastFL := lastPyFileLine lines
          let lastLineText :=
            (lines.reverse.find? (fun l => decide (0 < (trimJs l).length))).getD []
          match pyHeadMatch lastLineText with
          | some (t, m) =>
            some { runtime := Runtime.python, type := t, message := m,
                   file := lastFL.map (fun fl => fl.1),
                   line := lastFL.map (fun fl => fl.2),
                   column := none, stack := stderr }
          | none =>
            some { runtime := Runtime.python, type := "Error".data,
                   message := lastLineText,
                   file := lastFL.map (fun fl => fl.1),
                   line := lastFL.map (fun fl => fl.2),
                   column := none, stack := stderr }
        else none

/-- `truncate` from `server.ts`. -/
def truncate (text : Str) (max : Nat) : Str :=
  if text.length ≤ max then text
  else text.take (max - 20) ++ "\n…[truncated]".data

/-- The JSON-payload built by the `debug` handler before rendering. -/
structure Payload where
  language : Str
  command : Str
  cwd : Str
  exitCode : Option Int
  timedOut : Bool
  stdout : Str
  stderr : Str
  error : Option ErrorRecord

/-- Decimal rendering of the exit code; `null` when the process was killed
(JS template-string interpolation of `null`). -/
def showExitCode : Option Int → Str
  | none => "null".data
  | some n => (toString n).data

/-- `payload.error.line ?? "?"`. -/
def showLineOpt : Option Nat → Str
  | none => "?".data
  | some n => (toString n).data

/-- The `parts` array built by `renderSummary`, in push order. -/
def renderParts (payload : Payload) : List Str :=
  ["Command: ".data ++ payload.command,
   "CWD: ".data ++ payload.cwd,
   "Exit: ".data ++ showExitCode payload.exitCode ++
     (if payload.timedOut then " (timed out)".data else [])]
  ++ (match payload.error with
      | some e =>
        ("Error: ".data ++ e.type ++ ": ".data ++ e.message) ::
          (match e.file with
           | some f =>
             if f.isEmpty then []
             else ["File: ".data ++ f ++ ":".data ++ showLineOpt e.line]
           | none => [])
      | none => [])
  ++ (if (trimJs payload.stdout).isEmpty then []
      else ["STDOUT:\n".data ++ truncate payload.stdout 4000])
  ++ (if (trimJs payload.stderr).isEmpty then []
      else ["STDERR:\n".data ++ truncate payload.stderr 4000])

/-- `parts.join("\n")`. -/
def joinParts : List Str → Str
  | [] => []
  | [p] => p
  | p :: q :: ps => p ++ '\n' :: joinParts (q :: ps)

/-- `renderSummary` from `server.ts`. -/
def renderSummary (payload : Payload) : Str :=
  joinParts (renderParts payload)

/-- The `language` discriminator of the `debug` tool (a two-value enum). -/
inductive Lang where
  | node
  | python
deriving DecidableEq

/-- Outcome of an `execa` run with `reject: false`: captured streams, the
exit code (absent when the process was killed), and the timeout flag. -/
structure SpawnOutcome where
  stdout : Str
  stderr : Str
  exitCode : Option Int
  timedOut : Bool

/-- Behaviour of the spawn attempt: either it resolves to an outcome, or the
spawn itself throws (the `catch` branch of the handler). -/
inductive SpawnBehavior where
  | ok : SpawnOutcome → SpawnBehavior
  | throws : Str → SpawnBehavior

/-- Abstracted environment of one `debug` invocation: whether the resolved
entry path exists on disk, and what spawning the child would do. -/
structure DebugEnv where
  entryExists : Bool
  spawn : SpawnBehavior

/-- Result of the `debug` tool handler as far as the claims are concerned:
the `isError` flag, whether a child was spawned, and the structured payload
(present only when an execution result was produced). -/
structure ToolOutcome where
  isError : Bool
  spawned : Bool
  payload : Option Payload
  text : Str

/-- Executable name selected from the language discriminator. -/
def commandFor : Lang → Str
  | Lang.node => "node".data
  | Lang.python => "python3".data

/-- `[command, ...childArgs].join(" ")`. -/
def joinWithSpace : List Str → Str
  | [] => []
  | [a] => a
  | a :: b :: rest => a ++ ' ' :: joinWithSpace (b :: rest)

/-- The spawn-and-collect part of the `debug` handler (the `try` block). -/
def runSpawn (language : Lang) (entryPath : Option Str) (args : List Str)
    (workingDir : Str) (env : DebugEnv) : ToolOutcome :=
  match env.spawn with
  | SpawnBehavior.throws msg =>
    { isError := true, spawned := true, payload := none,
      text := "Failed to execute: ".data ++ msg }
  | SpawnBehavior.ok r =>
    let command := commandFor language
    let childArgs :=
      match entryPath with
      | some ep => ep :: args
      | none => ["-V".data]
    let payload : Payload :=
      { language := (match language with
                     | Lang.node => "node".data
                     | Lang.python => "python".data),
        command := joinWithSpace (command :: childArgs),
        cwd := workingDir,
        exitCode := r.exitCode,
        timedOut := r.timedOut,
        stdout := r.stdout,
        stderr := r.stderr,
        error := parseError (some r.stderr) }
    { isError := !(r.exitCode == some 0), spawned := true,
      payload := some payload, text := renderSummary payload }

/-- The `debug` tool handler: entry-existence check first (no spawn when the
entry is given but missing), then the spawn attempt.  Path resolution is
plumbing performed by external collaborators, so `entryPath` and
`workingDir` are taken already resolved. -/
def debugHandler (language : Lang) (entryPath : Option Str) (args : List Str)
    (workingDir : Str) (env : DebugEnv) : ToolOutcome :=
  match entryPath with
  | some ep =>
    if !env.entryExists then
      { isError := true, spawned := false, payload := none,
        text := "Entry file not found: ".data ++ ep }
    else runSpawn language (some ep) args workingDir env
  | none => runSpawn language none args workingDir env

/-- Spec-side description of a family-A anchor line beginning exactly at
the start of the text: `<dotted identifier ending in Error>: <non-empty
rest of line>` followed by at least one further character.  This is the
line form the anchored node regex recognizes at a line start. -/
def AnchorAt (u : Str) : Prop :=
  ∃ W sp m k,
    u = W ++ "Error".data ++ ':' :: sp ++ m ++ '\n' :: k ∧
    (∀ c ∈ W, isWordDot c = true) ∧
    (∀ c ∈ sp, isJsSpace c = true) ∧
    m ≠ [] ∧ (∀ c ∈ m, isNotNewline c = true) ∧
    k ≠ []

/-- Valid consumption of one regex atom. -/
inductive SegOk : Piece → Str → Prop where
  | lit (l : Str) : SegOk (Piece.lit l) l
  | one {p : Char → Bool} {c : Char} (h : p c = true) : SegOk (Piece.one p) [c]
  | star {p : Char → Bool} {t : Str} (h : ∀ c ∈ t, p c = true) :
      SegOk (Piece.star p) t
  | eos : SegOk Piece.eos []

/-! ### Generic lemmas about the matcher -/

theorem starTry_eq_some (k : Str → Option (List Str × Str)) (s : Str) (n : Nat)
    (segs : List Str) (r : Str) (h : k (s.drop n) = some (segs, r)) :
    starTry k s n = some (s.take n :: segs, r) := by
  cases n with
  | zero =>
    have h' : k s = some (segs, r) := by simpa using h
    simp [starTry, h']
  | succ n => simp [starTry, h]

theorem starTry_eq_none (k : Str → Option (List Str × Str)) (s : Str) (n : Nat)
    (h : ∀ j, j ≤ n → k (s.drop j) = none) : starTry k s n = none := by
  induction n with
  | zero =>
    have h' : k s = none := by simpa using h 0 (Nat.zero_le 0)
    simp [starTry, h']
  | succ n ih =>
    simp only [starTry, h (n + 1) (Nat.le_refl _)]
    exact ih (fun j hj => h j (Nat.le_succ_of_le hj))

theorem starTry_eq_of_fail_between (k : Str → Option (List Str × Str)) (s : Str)
    (m n : Nat) (hnm : n ≤ m)
    (h : ∀ j, n < j → j ≤ m → k (s.drop j) = none) :
    starTry k s m = starTry k s n := by
  induction m with
  | zero =>
    cases Nat.le_zero.mp hnm
    rfl
  | succ m ih =>
    rcases Nat.lt_or_ge n (m + 1) with hlt | hge
    · have hm1 : k (s.drop (m + 1)) = none := h (m + 1) hlt (Nat.le_refl _)
      have : starTry k s (m + 1) = starTry k s m := by simp [starTry, hm1]
      rw [this]
      exact ih (Nat.lt_succ_iff.mp hlt) (fun j h1 h2 => h j h1 (Nat.le_succ_of_le h2))
    · have : n = m + 1 := Nat.le_antisymm hnm hge
      rw [this]

theorem starTry_isSome_of (k : Str → Option (List Str × Str)) (s : Str)
    (n m : Nat) (hnm : n ≤ m) (h : (k (s.drop n)).isSome = true) :
    (starTry k s m).isSome = true := by
  induction m with
  | zero =>
    cases Nat.le_zero.mp hnm
    obtain ⟨⟨segs, r⟩, hk⟩ := Option.isSome_iff_exists.mp h
    simp only [List.drop_zero] at hk
    simp [starTry, hk]
  | succ m ih =>
    rcases Nat.lt_or_ge n (m + 1) with hlt | hge
    · have hs := ih (Nat.lt_succ_iff.mp hlt)
      simp only [starTry]
      cases hk : k (s.drop (m + 1)) with
      | none => simpa using hs
      | some pr => cases pr; simp
    · have : n = m + 1 := Nat.le_antisymm hnm hge
      subst this
      obtain ⟨⟨segs, r⟩, hk⟩ := Option.isSome_iff_exists.mp h
      simp [starTry, hk]

theorem starTry_sound (k : Str → Option (List Str × Str)) (s : Str) (n : Nat)
    (segs : List Str) (r : Str) (h : starTry k s n = some (segs, r)) :
    ∃ m segs', m ≤ n ∧ segs = s.take m :: segs' ∧ k (s.drop m) = some (segs', r) := by
  induction n with
  | zero =>
    simp only [starTry] at h
    cases hk : k s with
    | none => rw [hk] at h; cases h
    | some pr =>
      cases pr with
      | mk segs' r' =>
        rw [hk] at h
        simp only [Option.some.injEq, Prod.mk.injEq] at h
        obtain ⟨h1, h2⟩ := h
        refine ⟨0, segs', Nat.le_refl 0, by simp [← h1], ?_⟩
        rw [h2] at hk
        simpa using hk
  | succ n ih =>
    simp only [starTry] at h
    cases hk : k (s.drop (n + 1)) with
    | none =>
      rw [hk] at h
      obtain ⟨m, segs', hm, hsegs, hkm⟩ := ih h
      exact ⟨m, segs', Nat.le_succ_of_le hm, hsegs, hkm⟩
    | some pr =>
      cases pr with
      | mk segs' r' =>
        rw [hk] at h
        simp only [Option.some.injEq, Prod.mk.injEq] at h
        obtain ⟨h1, h2⟩ := h
        exact ⟨n + 1, segs', Nat.le_refl _, h1.symm, by rw [hk, h2]⟩

theorem takeWhile_append_of_all (p : Char → Bool) (l₁ l₂ : Str)
    (h : ∀ c ∈ l₁, p c = true) :
    (l₁ ++ l₂).takeWhile p = l₁ ++ l₂.takeWhile p := by
  induction l₁ with
  | nil => simp
  | cons c t ih =>
    simp only [List.cons_append, List.takeWhile_cons_of_pos (h c (by simp))]
    simp only [List.cons_append, List.cons.injEq, true_and]
    exact ih (fun c hc => h c (by simp [hc]))

theorem takeWhile_length_le_of_break (p : Char → Bool) (a b : Str) (c : Char)
    (hc : p c = false) : ((a ++ c :: b).takeWhile p).length ≤ a.length := by
  induction a with
  | nil => simp [List.takeWhile_cons, hc]
  | cons x a ih =>
    by_cases hx : p x = true
    · simp only [List.cons_append, List.takeWhile_cons_of_pos hx, List.length_cons]
      exact Nat.succ_le_succ ih
    · simp [List.cons_append, List.takeWhile_cons_of_neg hx]

theorem isPrefixOf_append_not_mem {pat : Str} {c : Char} :
    ∀ {a b : Str}, pat.isPrefixOf (a ++ c :: b) = true → c ∉ pat →
      pat.isPrefixOf a = true := by
  intro a
  induction pat generalizing a with
  | nil => intro b _ _; cases a <;> simp [List.isPrefixOf]
  | cons p pat ih =>
    intro b h hc
    cases a with
    | nil =>
      simp only [List.nil_append, List.isPrefixOf, List.isPrefixOf_cons₂] at h
      have hpc : p = c := eq_of_beq (Bool.and_elim_left h)
      exact absurd (by simp [hpc] : c ∈ p :: pat) hc
    | cons x a =>
      simp only [List.cons_append, List.isPrefixOf_cons₂] at h ⊢
      refine Bool.and_intro (Bool.and_elim_left h) ?_
      exact ih (Bool.and_elim_right h) (fun hm => hc (by simp [hm]))

theorem isPrefixOf_append_of_drop {l₁ l₂ t : Str}
    (h1 : l₁.isPrefixOf t = true) (h2 : l₂.isPrefixOf (t.drop l₁.length) = true) :
    (l₁ ++ l₂).isPrefixOf t = true := by
  rw [List.isPrefixOf_iff_prefix] at h1 h2 ⊢
  obtain ⟨t', rfl⟩ := h1
  rw [List.drop_left] at h2
  obtain ⟨t'', rfl⟩ := h2
  exact ⟨t'', by simp⟩

theorem containsSub_infix_iff (pat s : Str) : containsSub pat s = true ↔ pat <:+: s := by
  induction s with
  | nil =>
    simp [containsSub, List.isPrefixOf_iff_prefix, List.prefix_nil, List.infix_nil]
  | cons c t ih =>
    simp only [containsSub, Bool.or_eq_true, List.isPrefixOf_iff_prefix, ih,
      List.infix_cons_iff]

theorem mem_take_of_le_takeWhile (p : Char → Bool) (s : Str) (m : Nat)
    (hm : m ≤ (s.takeWhile p).length) : ∀ c ∈ s.take m, p c = true := by
  intro c hc
  have h1 : s.take m = (s.takeWhile p).take m := by
    obtain ⟨t, ht⟩ := List.takeWhile_prefix (l := s) p
    conv_lhs => rw [← ht]
    rw [List.take_append_of_le_length hm]
  rw [h1] at hc
  exact List.mem_takeWhile_imp (List.mem_of_mem_take hc)

theorem matchSeq_sound : ∀ (ps : List Piece) (s : Str) (segs : List Str) (r : Str),
    matchSeq ps s = some (segs, r) →
    s = segs.flatten ++ r ∧ List.Forall₂ SegOk ps segs := by
  intro ps
  induction ps with
  | nil =>
    intro s segs r h
    simp only [matchSeq, Option.some.injEq, Prod.mk.injEq] at h
    obtain ⟨h1, h2⟩ := h
    subst h1; subst h2
    exact ⟨by simp, List.Forall₂.nil⟩
  | cons piece ps ih =>
    intro s segs r h
    cases piece with
    | eos =>
      cases s with
      | nil =>
        simp only [matchSeq] at h
        cases hk : matchSeq ps [] with
        | none => rw [hk] at h; cases h
        | some pr =>
          cases pr with
          | mk segs' r' =>
            rw [hk] at h
            simp only [Option.some.injEq, Prod.mk.injEq] at h
            obtain ⟨h1, h2⟩ := h
            obtain ⟨hj, hf⟩ := ih [] segs' r' hk
            subst h2
            refine ⟨?_, ?_⟩
            · rw [← h1]; simpa using hj
            · rw [← h1]; exact List.Forall₂.cons SegOk.eos hf
      | cons c t => simp only [matchSeq] at h; cases h
    | lit l =>
      simp only [matchSeq] at h
      by_cases hp : l.isPrefixOf s = true
      · rw [if_pos hp] at h
        cases hk : matchSeq ps (s.drop l.length) with
        | none => rw [hk] at h; cases h
        | some pr =>
          cases pr with
          | mk segs' r' =>
            rw [hk] at h
            simp only [Option.some.injEq, Prod.mk.injEq] at h
            obtain ⟨h1, h2⟩ := h
            obtain ⟨hj, hf⟩ := ih _ segs' r' hk
            subst h2
            obtain ⟨t, rfl⟩ := List.isPrefixOf_iff_prefix.mp hp
            rw [List.drop_left] at hj
            refine ⟨?_, ?_⟩
            · rw [← h1]; simp [hj]
            · rw [← h1]; exact List.Forall₂.cons (SegOk.lit l) hf
      · rw [if_neg hp] at h; cases h
    | one p =>
      cases s with
      | nil => simp only [matchSeq] at h; cases h
      | cons c t =>
        simp only [matchSeq] at h
        by_cases hp : p c = true
        · rw [if_pos hp] at h
          cases hk : matchSeq ps t with
          | none => rw [hk] at h; cases h
          | some pr =>
            cases pr with
            | mk segs' r' =>
              rw [hk] at h
              simp only [Option.some.injEq, Prod.mk.injEq] at h
              obtain ⟨h1, h2⟩ := h
              obtain ⟨hj, hf⟩ := ih _ segs' r' hk
              subst h2
              refine ⟨?_, ?_⟩
              · rw [← h1]; simp [← hj]
              · rw [← h1]; exact List.Forall₂.cons (SegOk.one hp) hf
        · rw [if_neg hp] at h; cases h
    | star p =>
      simp only [matchSeq] at h
      obtain ⟨m, segs', hm, hsegs, hkm⟩ := starTry_sound _ s _ segs r h
      obtain ⟨hj, hf⟩ := ih _ segs' r hkm
      subst hsegs
      refine ⟨?_, ?_⟩
      · conv_lhs => rw [← List.take_append_drop m s]
        simp [hj]
      · exact List.Forall₂.cons (SegOk.star (mem_take_of_le_takeWhile p s m hm)) hf

theorem matchSeq_complete : ∀ (ps : List Piece) (segs : List Str),
    List.Forall₂ SegOk ps segs → Piece.eos ∉ ps →
    ∀ (r : Str), (matchSeq ps (segs.flatten ++ r)).isSome = true := by
  intro ps
  induction ps with
  | nil =>
    intro segs hf _ r
    cases hf
    simp [matchSeq]
  | cons piece ps' ihps =>
    intro segs hf hno r
    cases hf with
    | cons hseg hrest =>
    rename_i seg segs'
    have hno' : Piece.eos ∉ ps' := fun h => hno (by simp [h])
    have ih : ∀ (r : Str), (matchSeq ps' (segs'.flatten ++ r)).isSome = true :=
      fun r => ihps segs' hrest hno' r
    cases hseg with
    | lit =>
      have hpre : seg.isPrefixOf (seg ++ (segs'.flatten ++ r)) = true :=
        List.isPrefixOf_iff_prefix.mpr ⟨segs'.flatten ++ r, by simp⟩
      have := ih r
      obtain ⟨pr, hpr⟩ := Option.isSome_iff_exists.mp this
      cases pr
      simp only [List.flatten_cons, List.append_assoc]
      simp [matchSeq, hpre, List.drop_left, hpr]
    | one hp =>
      rename_i p c
      have := ih r
      obtain ⟨pr, hpr⟩ := Option.isSome_iff_exists.mp this
      cases pr
      simp [matchSeq, hp, hpr]
    | star hp =>
      rename_i p
      have hlen : seg.length ≤ (((seg ++ (segs'.flatten ++ r))).takeWhile p).length := by
        rw [takeWhile_append_of_all p seg _ hp]
        simp
      have hk : (matchSeq ps' ((seg ++ (segs'.flatten ++ r)).drop seg.length)).isSome = true := by
        rw [List.drop_left]; exact ih r
      simp only [List.flatten_cons, List.append_assoc]
      simp only [matchSeq]
      exact starTry_isSome_of _ _ seg.length _ hlen hk
    | eos => exact absurd (by simp) hno

theorem errorData : "Error".data = ['E', 'r', 'r', 'o', 'r'] := rfl

theorem errorColonData : "Error:".data = ['E', 'r', 'r', 'o', 'r', ':'] := rfl

theorem colonData : ":".data = [':'] := rfl

theorem errorColon_append : "Error:".data = "Error".data ++ ":".data := rfl

theorem isPrefixOf_of_append_of_le (pat a w : Str) (h : pat <+: a ++ w)
    (hl : pat.length ≤ a.length) : pat <+: a := by
  have heq : pat = (a ++ w).take pat.length := List.prefix_iff_eq_take.mp h
  rw [List.take_append_of_le_length hl] at heq
  rw [heq]
  exact List.take_prefix _ _

theorem litlit_eq (l1 l2 : Str) (ps : List Piece) (s : Str) :
    matchSeq (Piece.lit l1 :: Piece.lit l2 :: ps) s =
    if (l1 ++ l2).isPrefixOf s then
      match matchSeq ps (s.drop (l1 ++ l2).length) with
      | some (segs, r) => some (l1 :: l2 :: segs, r)
      | none => none
    else none := by
  by_cases h1 : l1.isPrefixOf s = true
  · obtain ⟨s', rfl⟩ := List.isPrefixOf_iff_prefix.mp h1
    have hd1 : (l1 ++ s').drop l1.length = s' := List.drop_left _ _
    by_cases h2 : l2.isPrefixOf s' = true
    · obtain ⟨s'', rfl⟩ := List.isPrefixOf_iff_prefix.mp h2
      have h12 : (l1 ++ l2).isPrefixOf (l1 ++ (l2 ++ s'')) = true := by
        rw [List.isPrefixOf_iff_prefix]
        exact ⟨s'', by simp⟩
      have hdrop : (l1 ++ (l2 ++ s'')).drop (l1 ++ l2).length = s'' := by
        rw [← List.append_assoc]
        exact List.drop_left _ _
      cases hmt : matchSeq ps s'' with
      | none => simp [matchSeq, h1, h2, hd1, h12, hdrop, hmt]
      | some pr => cases pr; simp [matchSeq, h1, h2, hd1, h12, hdrop, hmt]
    · have h12 : ¬ (l1 ++ l2).isPrefixOf (l1 ++ s') = true := by
        rw [List.isPrefixOf_iff_prefix, List.prefix_append_right_inj]
        rw [List.isPrefixOf_iff_prefix] at h2
        exact h2
      simp [matchSeq, h1, h2, h12, hd1]
  · have h12 : ¬ (l1 ++ l2).isPrefixOf s = true := by
      rw [List.isPrefixOf_iff_prefix]
      intro hc
      exact h1 (List.isPrefixOf_iff_prefix.mpr ((List.prefix_append l1 l2).trans hc))
    simp [matchSeq, h1, h12]

theorem errlit_fail (v tl : Str) (ps : List Piece)
    (hv : ∀ c ∈ v, isWordDot c = true) (hlen : v.length ≠ 5) :
    matchSeq (Piece.lit "Error".data :: Piece.lit ":".data :: ps) (v ++ ':' :: tl) = none := by
  rw [litlit_eq, ← errorColon_append]
  have hnp : ¬ "Error:".data.isPrefixOf (v ++ ':' :: tl) = true := by
    intro hp
    rw [List.isPrefixOf_iff_prefix] at hp
    by_cases h6 : 6 ≤ v.length
    · have hpv : "Error:".data <+: v :=
        isPrefixOf_of_append_of_le _ _ _ hp (by rw [errorColonData]; simpa using h6)
      have : (':' : Char) ∈ v := hpv.subset (by rw [errorColonData]; simp)
      have := hv ':' this
      simp [isWordDot, isWordChar] at this
    · have hpv : "Error".data.isPrefixOf v = true := by
        have hEp : "Error".data <+: (v ++ ':' :: tl) :=
          (List.prefix_append "Error".data ":".data).trans (by rwa [← errorColon_append])
        exact isPrefixOf_append_not_mem (List.isPrefixOf_iff_prefix.mpr hEp) (by decide)
      have hl := (List.isPrefixOf_iff_prefix.mp hpv).length_le
      rw [errorData] at hl
      simp at hl
      omega
  simp [hnp]

theorem errlit_fail_newline (a b : Str) (ps : List Piece)
    (hnc : containsSub "Error:".data (a ++ ['\n']) = false) :
    matchSeq (Piece.lit "Error".data :: Piece.lit ":".data :: ps) (a ++ '\n' :: b) = none := by
  rw [litlit_eq, ← errorColon_append]
  have hnp : ¬ "Error:".data.isPrefixOf (a ++ '\n' :: b) = true := by
    intro hp
    have hpa : "Error:".data.isPrefixOf a = true :=
      isPrefixOf_append_not_mem hp (by decide)
    have : containsSub "Error:".data (a ++ ['\n']) = true := by
      rw [containsSub_infix_iff]
      exact ((List.isPrefixOf_iff_prefix.mp hpa).trans (List.prefix_append a ['\n'])).isInfix
    rw [this] at hnc
    cases hnc
  simp [hnp]

theorem isWordDot_colon : isWordDot ':' = false := by decide

theorem errorData_wordDot : ∀ c ∈ "Error".data, isWordDot c = true := by
  rw [errorData]
  intro c hc
  fin_cases hc <;> decide

theorem matchSeq_errorHead (W tl : Str) (ps : List Piece)
    (hW : ∀ c ∈ W, isWordDot c = true) :
    matchSeq (Piece.star isWordDot :: Piece.lit "Error".data :: Piece.lit ":".data :: ps)
      ((W ++ "Error".data) ++ ':' :: tl) =
    match matchSeq ps tl with
    | some (segs, r) => some (W :: "Error".data :: ":".data :: segs, r)
    | none => none := by
  have hWE : ∀ c ∈ W ++ "Error".data, isWordDot c = true := by
    intro c hc
    rcases List.mem_append.mp hc with h | h
    · exact hW c h
    · exact errorData_wordDot c h
  have htw : ((W ++ "Error".data) ++ ':' :: tl).takeWhile isWordDot = W ++ "Error".data := by
    rw [List.append_assoc, takeWhile_append_of_all _ _ _ hW]
    rw [takeWhile_append_of_all _ _ _ errorData_wordDot]
    simp [List.takeWhile_cons, isWordDot_colon]
  have hlenWE : (W ++ "Error".data).length = W.length + 5 := by
    simp [errorData]
  have hfail : ∀ j, j ≤ W.length + 5 → j ≠ W.length →
      matchSeq (Piece.lit "Error".data :: Piece.lit ":".data :: ps)
        (((W ++ "Error".data) ++ ':' :: tl).drop j) = none := by
    intro j hj hne
    have hdropj : ((W ++ "Error".data) ++ ':' :: tl).drop j =
        (W ++ "Error".data).drop j ++ ':' :: tl := by
      apply List.drop_append_of_le_length
      omega
    rw [hdropj]
    apply errlit_fail
    · intro c hc; exact hWE c (List.mem_of_mem_drop hc)
    · rw [List.length_drop, hlenWE]
      omega
  have hmid : matchSeq (Piece.lit "Error".data :: Piece.lit ":".data :: ps)
      (((W ++ "Error".data) ++ ':' :: tl).drop W.length) =
      match matchSeq ps tl with
      | some (segs, r) => some ("Error".data :: ":".data :: segs, r)
      | none => none := by
    have hdw : ((W ++ "Error".data) ++ ':' :: tl).drop W.length =
        "Error".data ++ ':' :: tl := by
      rw [List.append_assoc]
      exact List.drop_left W _
    have hpre : "Error:".data.isPrefixOf ("Error".data ++ ':' :: tl) = true := by
      rw [List.isPrefixOf_iff_prefix, errorColon_append, colonData,
        List.prefix_append_right_inj]
      exact ⟨tl, rfl⟩
    have hdrop6 : ("Error".data ++ ':' :: tl).drop ("Error:".data).length = tl := by
      show ("Error".data ++ ':' :: tl).drop 6 = tl
      rw [errorData]
      rfl
    rw [hdw, litlit_eq, ← errorColon_append, if_pos hpre, hdrop6]
  rw [matchSeq, htw]
  cases hmt : matchSeq ps tl with
  | some pr =>
    cases pr with
    | mk segs r =>
      have hk : matchSeq (Piece.lit "Error".data :: Piece.lit ":".data :: ps)
          (((W ++ "Error".data) ++ ':' :: tl).drop W.length) =
          some ("Error".data :: ":".data :: segs, r) := by
        rw [hmid, hmt]
      have := starTry_eq_some
        (fun u => matchSeq (Piece.lit "Error".data :: Piece.lit ":".data :: ps) u)
        ((W ++ "Error".data) ++ ':' :: tl) W.length _ _ hk
      rw [hlenWE]
      have hstep : starTry
          (fun u => matchSeq (Piece.lit "Error".data :: Piece.lit ":".data :: ps) u)
          ((W ++ "Error".data) ++ ':' :: tl) (W.length + 5) =
          starTry (fun u => matchSeq (Piece.lit "Error".data :: Piece.lit ":".data :: ps) u)
          ((W ++ "Error".data) ++ ':' :: tl) W.length := by
        apply starTry_eq_of_fail_between
        · omega
        · intro j h1 h2
          exact hfail j h2 (by omega)
      rw [hstep, this]
      have htake : ((W ++ "Error".data) ++ ':' :: tl).take W.length = W := by
        rw [List.append_assoc]
        rw [List.take_append_of_le_length (by simp)]
        simp
      rw [htake]
  | none =>
    rw [hlenWE]
    apply starTry_eq_none
    intro j hj
    rcases eq_or_ne j W.length with rfl | hne
    · rw [hmid, hmt]
    · exact hfail j hj hne

theorem split_first_newline (q : Str) (hmem : '\n' ∈ q) :
    ∃ q1 q2, q = q1 ++ '\n' :: q2 ∧ ∀ c ∈ q1, (c == '\n') = false := by
  induction q with
  | nil => cases hmem
  | cons c t ih =>
    by_cases hc : c = '\n'
    · subst hc
      exact ⟨[], t, rfl, by simp⟩
    · have hm : '\n' ∈ t := by
        rcases List.mem_cons.mp hmem with h | h
        · exact absurd h.symm hc
        · exact h
      obtain ⟨q1, q2, hq, hq1⟩ := ih hm
      refine ⟨c :: q1, q2, by simp [hq], ?_⟩
      intro d hd
      rcases List.mem_cons.mp hd with h | h
      · subst h
        exact beq_eq_false_iff_ne.mpr hc
      · exact hq1 d h

theorem matchSeq_node_none_of_pre (q rest : Str) (hne : q ≠ [])
    (hlast : q.getLast? = some '\n')
    (hnc : containsSub "Error:".data q = false) :
    matchSeq nodePieces (q ++ rest) = none := by
  have hmem : '\n' ∈ q := List.mem_of_mem_getLast? hlast
  obtain ⟨q1, q2, rfl, hq1⟩ := split_first_newline q hmem
  have hs : (q1 ++ '\n' :: q2) ++ rest = q1 ++ '\n' :: (q2 ++ rest) := by simp
  rw [hs, nodePieces, matchSeq]
  apply starTry_eq_none
  intro j hj
  have hNle : ((q1 ++ '\n' :: (q2 ++ rest)).takeWhile isWordDot).length ≤ q1.length :=
    takeWhile_length_le_of_break _ _ _ _ (by decide)
  have hjq : j ≤ q1.length := le_trans hj hNle
  have hdropj : (q1 ++ '\n' :: (q2 ++ rest)).drop j = q1.drop j ++ '\n' :: (q2 ++ rest) :=
    List.drop_append_of_le_length hjq
  show matchSeq (Piece.lit "Error".data :: Piece.lit ":".data ::
      [Piece.star isJsSpace, Piece.one isNotNewline, Piece.star isNotNewline,
       Piece.lit "\n".data, Piece.one anyChar, Piece.star anyChar])
      ((q1 ++ '\n' :: (q2 ++ rest)).drop j) = none
  rw [hdropj]
  apply errlit_fail_newline
  cases hcs : containsSub "Error:".data (q1.drop j ++ ['\n']) with
  | false => rfl
  | true =>
    exfalso
    have hinf := (containsSub_infix_iff _ _).mp hcs
    have hsuf : q1.drop j ++ ['\n'] <:+ q1 ++ ['\n'] :=
      ⟨q1.take j, by rw [← List.append_assoc, List.take_append_drop]⟩
    have hprefq : q1 ++ ['\n'] <+: q1 ++ '\n' :: q2 := ⟨q2, by simp⟩
    have : "Error:".data <:+: q1 ++ '\n' :: q2 :=
      (hinf.trans hsuf.isInfix).trans hprefq.isInfix
    have hcq := (containsSub_infix_iff "Error:".data (q1 ++ '\n' :: q2)).mpr this
    rw [hcq] at hnc
    cases hnc

theorem execLineStartsAux_node_append : ∀ (pre rest : Str),
    pre.getLast? = some '\n' → containsSub "Error:".data pre = false →
    execLineStartsAux nodePieces (pre ++ rest) = execLineStarts nodePieces rest := by
  intro pre
  induction pre with
  | nil => intro rest h _; cases h
  | cons c pre ih =>
    intro rest hlast hnc
    have hnc' : containsSub "Error:".data pre = false := by
      have : ("Error:".data.isPrefixOf (c :: pre) || containsSub "Error:".data pre)
          = false := hnc
      exact (Bool.or_eq_false_iff.mp this).2
    by_cases hpre : pre = []
    · subst hpre
      simp only [List.getLast?_singleton, Option.some.injEq] at hlast
      subst hlast
      show execLineStartsAux nodePieces ('\n' :: rest) = execLineStarts nodePieces rest
      cases hk : matchSeq nodePieces rest with
      | none => simp [execLineStartsAux, execLineStarts, hk]
      | some pr => cases pr; simp [execLineStartsAux, execLineStarts, hk]
    · have hlast' : pre.getLast? = some '\n' := by
        obtain ⟨d, pre', rfl⟩ := List.exists_cons_of_ne_nil hpre
        rwa [List.getLast?_cons_cons] at hlast
      by_cases hc : c = '\n'
      · subst hc
        have hnone : matchSeq nodePieces (pre ++ rest) = none :=
          matchSeq_node_none_of_pre pre rest hpre hlast' hnc'
        simp only [List.cons_append, execLineStartsAux, List.append_eq, hnone]
        exact ih rest hlast' hnc'
      · have hstep : execLineStartsAux nodePieces (c :: (pre ++ rest)) =
            execLineStartsAux nodePieces (pre ++ rest) := by
          simp only [execLineStartsAux]
        rw [List.cons_append, hstep]
        exact ih rest hlast' hnc'

theorem execLineStarts_node_append (pre rest : Str)
    (hlast : pre.getLast? = some '\n')
    (hnc : containsSub "Error:".data pre = false) :
    execLineStarts nodePieces (pre ++ rest) = execLineStarts nodePieces rest := by
  have hne : pre ≠ [] := by
    intro h
    rw [h] at hlast
    cases hlast
  have hnone : matchSeq nodePieces (pre ++ rest) = none :=
    matchSeq_node_none_of_pre pre rest hne hlast hnc
  simp only [execLineStarts, hnone]
  exact execLineStartsAux_node_append pre rest hlast hnc

theorem takeWhile_all_eq (p : Char → Bool) (l : Str) (h : ∀ c ∈ l, p c = true) :
    l.takeWhile p = l := by
  induction l with
  | nil => rfl
  | cons c t ih =>
    rw [List.takeWhile_cons_of_pos (h c (by simp))]
    rw [ih (fun c hc => h c (by simp [hc]))]

theorem matchSeq_starAll (p : Char → Bool) (l : Str) (h : ∀ c ∈ l, p c = true) :
    matchSeq [Piece.star p] l = some ([l], []) := by
  rw [matchSeq]
  rw [takeWhile_all_eq p l h]
  have hk : matchSeq [] (l.drop l.length) = some ([], []) := by
    rw [List.drop_length]
    rfl
  have hfin := starTry_eq_some (fun u => matchSeq [] u) l l.length [] [] hk
  rw [hfin, List.take_length]

theorem matchSeq_lit_cons (l : Str) (ps : List Piece) (s : Str)
    (hp : l.isPrefixOf s = true) :
    matchSeq (Piece.lit l :: ps) s =
    match matchSeq ps (s.drop l.length) with
    | some (segs, r) => some (l :: segs, r)
    | none => none := by
  rw [matchSeq, if_pos hp]

theorem matchSeq_one_cons (p : Char → Bool) (ps : List Piece) (c : Char) (t : Str)
    (hp : p c = true) :
    matchSeq (Piece.one p :: ps) (c :: t) =
    match matchSeq ps t with
    | some (segs, r) => some ([c] :: segs, r)
    | none => none := by
  rw [matchSeq]
  simp [hp]

theorem matchSeq_nodeTail (sp m' k' : Str) (c d : Char)
    (hsp : ∀ x ∈ sp, isJsSpace x = true)
    (hc : isJsSpace c = false) (hcnl : isNotNewline c = true)
    (hm' : ∀ x ∈ m', isNotNewline x = true) :
    matchSeq [Piece.star isJsSpace, Piece.one isNotNewline, Piece.star isNotNewline,
      Piece.lit "\n".data, Piece.one anyChar, Piece.star anyChar]
      (sp ++ c :: (m' ++ '\n' :: d :: k')) =
    some ([sp, [c], m', "\n".data, [d], k'], []) := by
  have hstar : matchSeq [Piece.star anyChar] k' = some ([k'], []) :=
    matchSeq_starAll anyChar k' (fun _ _ => rfl)
  have h4 : matchSeq [Piece.lit "\n".data, Piece.one anyChar, Piece.star anyChar]
      ('\n' :: d :: k') = some (["\n".data, [d], k'], []) := by
    have hpre : ("\n".data).isPrefixOf ('\n' :: d :: k') = true :=
      List.isPrefixOf_iff_prefix.mpr ⟨d :: k', rfl⟩
    have hdropnl : ('\n' :: d :: k').drop ("\n".data).length = d :: k' := rfl
    rw [matchSeq_lit_cons _ _ _ hpre, hdropnl,
      matchSeq_one_cons anyChar _ d k' rfl, hstar]
  have h3 : matchSeq [Piece.star isNotNewline, Piece.lit "\n".data, Piece.one anyChar,
      Piece.star anyChar] (m' ++ '\n' :: d :: k') =
      some ([m', "\n".data, [d], k'], []) := by
    rw [matchSeq]
    have htw : (m' ++ '\n' :: d :: k').takeWhile isNotNewline = m' := by
      rw [takeWhile_append_of_all _ _ _ hm']
      simp [List.takeWhile_cons]
      decide
    rw [htw]
    have hk : matchSeq [Piece.lit "\n".data, Piece.one anyChar, Piece.star anyChar]
        ((m' ++ '\n' :: d :: k').drop m'.length) = some (["\n".data, [d], k'], []) := by
      rw [List.drop_left]
      exact h4
    have hfin := starTry_eq_some
      (fun u => matchSeq [Piece.lit "\n".data, Piece.one anyChar, Piece.star anyChar] u)
      (m' ++ '\n' :: d :: k') m'.length _ _ hk
    rw [hfin, List.take_left]
  have h2 : matchSeq [Piece.one isNotNewline, Piece.star isNotNewline, Piece.lit "\n".data,
      Piece.one anyChar, Piece.star anyChar] (c :: (m' ++ '\n' :: d :: k')) =
      some ([[c], m', "\n".data, [d], k'], []) := by
    rw [matchSeq_one_cons _ _ _ _ hcnl, h3]
  rw [matchSeq]
  have htw : (sp ++ c :: (m' ++ '\n' :: d :: k')).takeWhile isJsSpace = sp := by
    rw [takeWhile_append_of_all _ _ _ hsp]
    simp [List.takeWhile_cons, hc]
  rw [htw]
  have hk : matchSeq [Piece.one isNotNewline, Piece.star isNotNewline, Piece.lit "\n".data,
      Piece.one anyChar, Piece.star anyChar]
      ((sp ++ c :: (m' ++ '\n' :: d :: k')).drop sp.length) =
      some ([[c], m', "\n".data, [d], k'], []) := by
    rw [List.drop_left]
    exact h2
  have hfin := starTry_eq_some
    (fun u => matchSeq [Piece.one isNotNewline, Piece.star isNotNewline,
      Piece.lit "\n".data, Piece.one anyChar, Piece.star anyChar] u)
    (sp ++ c :: (m' ++ '\n' :: d :: k')) sp.length _ _ hk
  rw [hfin, List.take_left]

theorem matchSeq_nodeAnchor (W sp m' k' : Str) (m0 d : Char)
    (hW : ∀ c ∈ W, isWordDot c = true)
    (hsp : ∀ c ∈ sp, isJsSpace c = true)
    (hm0 : isJsSpace m0 = false) (hm0nl : isNotNewline m0 = true)
    (hm'all : ∀ c ∈ m', isNotNewline c = true) :
    matchSeq nodePieces
      (W ++ "Error".data ++ ':' :: (sp ++ (m0 :: m') ++ '\n' :: (d :: k'))) =
    some ([W, "Error".data, ":".data, sp, [m0], m', "\n".data, [d], k'], []) := by
  have htail := matchSeq_nodeTail sp m' k' m0 d hsp hm0 hm0nl hm'all
  have hshape : W ++ "Error".data ++ ':' :: (sp ++ (m0 :: m') ++ '\n' :: (d :: k')) =
      (W ++ "Error".data) ++ ':' :: (sp ++ m0 :: (m' ++ '\n' :: d :: k')) := by
    simp
  rw [hshape, nodePieces]
  rw [matchSeq_errorHead W (sp ++ m0 :: (m' ++ '\n' :: d :: k')) _ hW]
  rw [htail]

theorem execNodeAnchor_eq (pre W sp m' k' : Str) (m0 d : Char)
    (hpre : pre = [] ∨ pre.getLast? = some '\n')
    (hprenc : containsSub "Error:".data pre = false)
    (hW : ∀ c ∈ W, isWordDot c = true)
    (hsp : ∀ c ∈ sp, isJsSpace c = true)
    (hm0 : isJsSpace m0 = false) (hm0nl : isNotNewline m0 = true)
    (hm'all : ∀ c ∈ m', isNotNewline c = true) :
    execNodeAnchor
      (pre ++ (W ++ "Error".data ++ ':' :: (sp ++ (m0 :: m') ++ '\n' :: (d :: k')))) =
    some (W ++ "Error".data, m0 :: m', d :: k') := by
  have hanchor := matchSeq_nodeAnchor W sp m' k' m0 d hW hsp hm0 hm0nl hm'all
  have hels : execLineStarts nodePieces
      (pre ++ (W ++ "Error".data ++ ':' :: (sp ++ (m0 :: m') ++ '\n' :: (d :: k')))) =
      execLineStarts nodePieces
      (W ++ "Error".data ++ ':' :: (sp ++ (m0 :: m') ++ '\n' :: (d :: k'))) := by
    cases hpre with
    | inl h => rw [h, List.nil_append]
    | inr h => exact execLineStarts_node_append pre _ h hprenc
  rw [execNodeAnchor, hels, execLineStarts, hanchor]
  rfl

theorem execNodeAnchor_eq2 (pre W sp m' stk : Str) (m0 : Char)
    (hstk : stk ≠ [])
    (hpre : pre = [] ∨ pre.getLast? = some '\n')
    (hprenc : containsSub "Error:".data pre = false)
    (hW : ∀ c ∈ W, isWordDot c = true)
    (hsp : ∀ c ∈ sp, isJsSpace c = true)
    (hm0 : isJsSpace m0 = false) (hm0nl : isNotNewline m0 = true)
    (hm'all : ∀ c ∈ m', isNotNewline c = true) :
    execNodeAnchor (pre ++ (W ++ "Error".data ++ ':' :: (sp ++ (m0 :: m') ++ '\n' :: stk)))
    = some (W ++ "Error".data, m0 :: m', stk) := by
  obtain ⟨d, k', rfl⟩ := List.exists_cons_of_ne_nil hstk
  exact execNodeAnchor_eq pre W sp m' k' m0 d hpre hprenc hW hsp hm0 hm0nl hm'all

/-- C7: a stdout/stderr body at or under the fixed 4000-character budget is
rendered verbatim; a strictly longer body is rendered as the 3980-character
head of the original followed by the explicit truncation marker, so the
rendered body keeps a head of the original, stays within the budget, and
ends with the marker. -/
theorem claim7_truncate (text : Str) :
    (text.length ≤ 4000 → truncate text 4000 = text) ∧
    (4000 < text.length →
      truncate text 4000 = text.take 3980 ++ "\n…[truncated]".data ∧
      (truncate text 4000).length ≤ 4000 ∧
      text.take 3980 <+: truncate text 4000 ∧
      "\n…[truncated]".data <:+ truncate text 4000) := by
  constructor
  · intro h
    simp [truncate, h]
  · intro h
    have hns : ¬ text.length ≤ 4000 := by omega
    have heq : truncate text 4000 = text.take 3980 ++ "\n…[truncated]".data := by
      simp [truncate, hns]
    refine ⟨heq, ?_, ?_, ?_⟩
    · rw [heq, List.length_append, List.length_take]
      have hm : ("\n…[truncated]".data).length = 13 := by decide
      rw [hm]
      omega
    · rw [heq]
      exact List.prefix_append _ _
    · rw [heq]
      exact List.suffix_append _ _

/-- Witness for C7: a 4001-character body is truncated with the marker and
bounded length; a short body is reproduced verbatim. -/
theorem claim7_truncate_witness :
    (truncate (List.replicate 4001 'a') 4000 =
      (List.replicate 4001 'a').take 3980 ++ "\n…[truncated]".data ∧
     (truncate (List.replicate 4001 'a') 4000).length ≤ 4000 ∧
     (List.replicate 4001 'a').take 3980 <+: truncate (List.replicate 4001 'a') 4000 ∧
     "\n…[truncated]".data <:+ truncate (List.replicate 4001 'a') 4000) ∧
    truncate "ok".data 4000 = "ok".data :=
  ⟨(claim7_truncate (List.replicate 4001 'a')).2
    (by rw [List.length_replicate]; omega),
   (claim7_truncate "ok".data).1 (by decide)⟩

/-- C5: the debug tool result is a tool-level failure exactly when the child
exit code is not 0 (including an absent exit code for a killed process), the
given entry path does not exist, or spawning throws; a missing entry means
no child is spawned and no payload is produced; and whenever the spawn
resolves, the handler returns an ordinary result with a payload — a crashing
or non-zero-exiting program is data, never an exception. -/
theorem claim5_debug_isError (language : Lang) (entryPath : Option Str)
    (args : List Str) (workingDir : Str) (env : DebugEnv) :
    ((debugHandler language entryPath args workingDir env).isError = true ↔
      ((∃ ep, entryPath = some ep ∧ env.entryExists = false) ∨
       (∃ msg, env.spawn = SpawnBehavior.throws msg) ∨
       (∃ r, env.spawn = SpawnBehavior.ok r ∧ r.exitCode ≠ some 0))) ∧
    ((∃ ep, entryPath = some ep ∧ env.entryExists = false) →
      (debugHandler language entryPath args workingDir env).spawned = false ∧
      (debugHandler language entryPath args workingDir env).payload = none) ∧
    (∀ r, env.spawn = SpawnBehavior.ok r →
      (entryPath = none ∨ env.entryExists = true) →
      (debugHandler language entryPath args workingDir env).payload.isSome = true) := by
  obtain ⟨ee, sp⟩ := env
  cases entryPath with
  | none =>
    cases sp with
    | throws msg => simp [debugHandler, runSpawn]
    | ok r =>
      simp only [debugHandler, runSpawn]
      refine ⟨?_, by simp, by simp⟩
      constructor
      · intro hb
        refine Or.inr (Or.inr ⟨r, rfl, ?_⟩)
        intro hzero
        rw [hzero] at hb
        simp at hb
      · intro hd
        rcases hd with ⟨ep, hep, _⟩ | ⟨msg, hmsg⟩ | ⟨r', hr', hz⟩
        · cases hep
        · cases hmsg
        · cases hr'
          simp [Bool.not_eq_true', beq_eq_false_iff_ne]
          exact hz
  | some ep =>
    cases ee with
    | false => simp [debugHandler]
    | true =>
      cases sp with
      | throws msg => simp [debugHandler, runSpawn]
      | ok r =>
        simp only [debugHandler, Bool.not_true, Bool.false_eq_true, if_false, runSpawn]
        refine ⟨?_, by simp, by simp⟩
        constructor
        · intro hb
          refine Or.inr (Or.inr ⟨r, rfl, ?_⟩)
          intro hzero
          rw [hzero] at hb
          simp at hb
        · intro hd
          rcases hd with ⟨ep', hep, hee⟩ | ⟨msg, hmsg⟩ | ⟨r', hr', hz⟩
          · cases hep; cases hee
          · cases hmsg
          · cases hr'
            simp [Bool.not_eq_true', beq_eq_false_iff_ne]
            exact hz

/-- Witness for C5: a missing entry file yields a failure with no spawn and
no payload; a clean exit-0 run is not a failure; a killed process (absent
exit code) is a failure carried as an ordinary result. -/
theorem claim5_debug_isError_witness :
    ((debugHandler Lang.node (some "/tmp/x.js".data) [] "/tmp".data
        (DebugEnv.mk false (SpawnBehavior.ok
          (SpawnOutcome.mk [] [] (some 0) false)))).isError = true) ∧
    ((debugHandler Lang.node (some "/tmp/x.js".data) [] "/tmp".data
        (DebugEnv.mk false (SpawnBehavior.ok
          (SpawnOutcome.mk [] [] (some 0) false)))).spawned = false) ∧
    ((debugHandler Lang.node none [] "/tmp".data
        (DebugEnv.mk true (SpawnBehavior.ok
          (SpawnOutcome.mk [] [] none true)))).payload.isSome = true) := by
  refine ⟨?_, ?_, ?_⟩
  · exact (claim5_debug_isError Lang.node (some "/tmp/x.js".data) [] "/tmp".data _).1.mpr
      (Or.inl ⟨"/tmp/x.js".data, rfl, rfl⟩)
  · exact ((claim5_debug_isError Lang.node (some "/tmp/x.js".data) [] "/tmp".data _).2.1
      ⟨"/tmp/x.js".data, rfl, rfl⟩).1
  · exact (claim5_debug_isError Lang.node none [] "/tmp".data _).2.2 _ rfl (Or.inl rfl)

theorem parseError_inv (stderr : Str) (rec : ErrorRecord)
    (h : parseError (some stderr) = some rec) :
    (∃ t m stk, execNodeAnchor stderr = some (t, m, stk) ∧
      rec.runtime = Runtime.node ∧ rec.stack = stk ∧
      rec.file = (execLoc stk).map (fun l => l.1) ∧
      rec.line = (execLoc stk).map (fun l => l.2.1) ∧
      rec.column = (execLoc stk).map (fun l => l.2.2)) ∨
    (∃ fl : Option (Str × Nat), rec.runtime = Runtime.python ∧
      rec.file = fl.map (fun x => x.1) ∧ rec.line = fl.map (fun x => x.2) ∧
      rec.column = none) := by
  rw [parseError] at h
  by_cases he : stderr.isEmpty = true
  · rw [if_pos he] at h
    cases h
  · rw [if_neg he] at h
    cases hA : execNodeAnchor stderr with
    | some tms =>
      obtain ⟨t, m, stk⟩ := tms
      rw [hA] at h
      simp only [Option.some.injEq] at h
      subst h
      exact Or.inl ⟨t, m, stk, rfl, rfl, rfl, rfl, rfl, rfl⟩
    | none =>
      rw [hA] at h
      by_cases hT : containsSub tracebackMarker stderr = true
      · rw [if_pos hT] at h
        have h' : (match pyHeadMatch (((splitLines stderr).reverse.find?
              (fun l => decide (0 < (trimJs l).length))).getD []) with
          | some (t, m) =>
            some { runtime := Runtime.python, type := t, message := m,
                   file := (lastPyFileLine (splitLines stderr)).map (fun fl => fl.1),
                   line := (lastPyFileLine (splitLines stderr)).map (fun fl => fl.2),
                   column := none, stack := stderr }
          | none =>
            some { runtime := Runtime.python, type := "Error".data,
                   message := ((splitLines stderr).reverse.find?
                     (fun l => decide (0 < (trimJs l).length))).getD [],
                   file := (lastPyFileLine (splitLines stderr)).map (fun fl => fl.1),
                   line := (lastPyFileLine (splitLines stderr)).map (fun fl => fl.2),
                   column := none, stack := stderr }) = some rec := h
        cases hpm : pyHeadMatch (((splitLines stderr).reverse.find?
            (fun l => decide (0 < (trimJs l).length))).getD []) with
        | some tm =>
          obtain ⟨t, m⟩ := tm
          rw [hpm] at h'
          simp only [Option.some.injEq] at h'
          subst h'
          exact Or.inr ⟨lastPyFileLine (splitLines stderr), rfl, rfl, rfl, rfl⟩
        | none =>
          rw [hpm] at h'
          simp only [Option.some.injEq] at h'
          subst h'
          exact Or.inr ⟨lastPyFileLine (splitLines stderr), rfl, rfl, rfl, rfl⟩
      · rw [if_neg hT] at h
        cases h

/-- C10: in every record `parseError` returns, a family-A record has file,
line and column all present or all absent, and a family-B record has column
absent and file/line both present or both absent. -/
theorem claim10_record_invariant (stderr : Option Str) (rec : ErrorRecord)
    (h : parseError stderr = some rec) :
    (rec.runtime = Runtime.node →
      rec.file.isSome = rec.line.isSome ∧ rec.line.isSome = rec.column.isSome) ∧
    (rec.runtime = Runtime.python →
      rec.column = none ∧ rec.file.isSome = rec.line.isSome) := by
  cases stderr with
  | none => rw [parseError] at h; cases h
  | some s =>
    rcases parseError_inv s rec h with
      ⟨t, m, stk, _, hrt, _, hf, hl, hc⟩ | ⟨fl, hrt, hf, hl, hc⟩
    · constructor
      · intro _
        rw [hf, hl, hc]
        cases execLoc stk <;> simp
      · intro hpy
        rw [hrt] at hpy
        cases hpy
    · constructor
      · intro hnd
        rw [hrt] at hnd
        cases hnd
      · intro _
        rw [hf, hl, hc]
        refine ⟨rfl, ?_⟩
        cases fl <;> simp

/-- Witness for C10: the invariant evaluated on a family-A record with no
location and on the family-B record of Scenario 2. -/
theorem claim10_record_invariant_witness :
    ((ErrorRecord.mk Runtime.node "Error".data "x".data none none none
        "at y".data).file.isSome =
      (ErrorRecord.mk Runtime.node "Error".data "x".data none none none
        "at y".data).line.isSome) ∧
    ((ErrorRecord.mk Runtime.python "ZeroDivisionError".data
        "division by zero".data (some "/tmp/app.py".data) (some 3) none
        "Traceback (most recent call last):\n  File \"/tmp/app.py\", line 3, in <module>\n    x = 1/0\nZeroDivisionError: division by zero".data).column
      = none) := by
  refine ⟨?_, ?_⟩
  · exact ((claim10_record_invariant
      (some "Error:  x\nat y".data)
      (ErrorRecord.mk Runtime.node "Error".data "x".data none none none
        "at y".data) (by decide)).1 rfl).1
  · exact ((claim10_record_invariant
      (some "Traceback (most recent call last):\n  File \"/tmp/app.py\", line 3, in <module>\n    x = 1/0\nZeroDivisionError: division by zero".data)
      (ErrorRecord.mk Runtime.python "ZeroDivisionError".data
        "division by zero".data (some "/tmp/app.py".data) (some 3) none
        "Traceback (most recent call last):\n  File \"/tmp/app.py\", line 3, in <module>\n    x = 1/0\nZeroDivisionError: division by zero".data)
      (by decide)).2 rfl).1

theorem trimJs_isEmpty_iff (s : Str) :
    (trimJs s).isEmpty = true ↔ ∀ c ∈ s, isJsSpace c = true := by
  rw [List.isEmpty_iff]
  unfold trimJs
  rw [List.reverse_eq_nil_iff, List.dropWhile_eq_nil_iff]
  constructor
  · intro h c hc
    have hsplit : s = s.takeWhile isJsSpace ++ s.dropWhile isJsSpace :=
      (List.takeWhile_append_dropWhile isJsSpace s).symm
    rw [hsplit] at hc
    rcases List.mem_append.mp hc with h1 | h2
    · exact List.mem_takeWhile_imp h1
    · exact h _ (List.mem_reverse.mpr h2)
  · intro h c hc
    exact h c ((List.dropWhile_sublist isJsSpace).subset (List.mem_reverse.mp hc))

theorem trimJs_isEmpty_false_iff (s : Str) :
    (trimJs s).isEmpty = false ↔ ∃ c ∈ s, isJsSpace c = false := by
  rw [← Bool.not_eq_true, trimJs_isEmpty_iff]
  constructor
  · intro h
    by_contra hno
    apply h
    intro c hc
    by_contra hcc
    exact hno ⟨c, hc, Bool.not_eq_true _ ▸ (Bool.eq_false_iff.mpr hcc)⟩
  · rintro ⟨c, hc, hcf⟩ hall
    rw [hall c hc] at hcf
    cases hcf

/-- C9: the rendered report contains the STDOUT section exactly when the
captured stdout has at least one non-whitespace character, and likewise for
the STDERR section; an empty or whitespace-only body is omitted entirely. -/
theorem claim9_render_sections (payload : Payload) :
    (("STDOUT:\n".data ++ truncate payload.stdout 4000) ∈ renderParts payload ↔
      ∃ c ∈ payload.stdout, isJsSpace c = false) ∧
    (("STDERR:\n".data ++ truncate payload.stderr 4000) ∈ renderParts payload ↔
      ∃ c ∈ payload.stderr, isJsSpace c = false) := by
  rw [← trimJs_isEmpty_false_iff, ← trimJs_isEmpty_false_iff]
  cases ho : (trimJs payload.stdout).isEmpty <;>
    cases he : (trimJs payload.stderr).isEmpty <;>
      cases herr : payload.error with
      | none =>
        simp [renderParts, ho, he, herr]
      | some e =>
        cases hf : e.file with
        | none => simp [renderParts, ho, he, herr, hf]
        | some f =>
          by_cases hfe : f.isEmpty = true <;>
            simp [renderParts, ho, he, herr, hf, hfe]

theorem exists_nine (segs : List Str) (h : segs.length = 9) :
    ∃ a b c d e f g i j, segs = [a, b, c, d, e, f, g, i, j] := by
  cases segs with
  | nil => simp at h
  | cons a s1 =>
  cases s1 with
  | nil => simp at h
  | cons b s2 =>
  cases s2 with
  | nil => simp at h
  | cons c s3 =>
  cases s3 with
  | nil => simp at h
  | cons d s4 =>
  cases s4 with
  | nil => simp at h
  | cons e s5 =>
  cases s5 with
  | nil => simp at h
  | cons f s6 =>
  cases s6 with
  | nil => simp at h
  | cons g s7 =>
  cases s7 with
  | nil => simp at h
  | cons i s8 =>
  cases s8 with
  | nil => simp at h
  | cons j s9 =>
  cases s9 with
  | nil => exact ⟨a, b, c, d, e, f, g, i, j, rfl⟩
  | cons k s10 => simp at h

theorem eos_not_mem_nodePieces : Piece.eos ∉ nodePieces := by
  intro h
  rw [nodePieces] at h
  simp at h

theorem segOk_one_inv {p : Char → Bool} {seg : Str} (h : SegOk (Piece.one p) seg) :
    ∃ c, seg = [c] ∧ p c = true := by
  cases h with
  | one hp => exact ⟨_, rfl, hp⟩

theorem segOk_star_inv {p : Char → Bool} {seg : Str} (h : SegOk (Piece.star p) seg) :
    ∀ c ∈ seg, p c = true := by
  cases h with
  | star hp => exact hp

theorem segOk_lit_inv {l seg : Str} (h : SegOk (Piece.lit l) seg) : seg = l := by
  cases h
  rfl

theorem segOk_eos_inv {seg : Str} (h : SegOk Piece.eos seg) : seg = [] := by
  cases h
  rfl

theorem anchorAt_of_matchSeq (u : Str) (pr : List Str × Str)
    (h : matchSeq nodePieces u = some pr) : AnchorAt u := by
  obtain ⟨segs, r⟩ := pr
  obtain ⟨hj, hf⟩ := matchSeq_sound _ _ _ _ h
  have hlen : segs.length = 9 := by
    have hle := hf.length_eq
    rw [nodePieces] at hle
    simpa using hle.symm
  obtain ⟨a, b, c, d, e, f, g, i, j, rfl⟩ := exists_nine segs hlen
  rw [nodePieces] at hf
  cases hf with
  | cons h1 hf =>
  cases hf with
  | cons h2 hf =>
  cases hf with
  | cons h3 hf =>
  cases hf with
  | cons h4 hf =>
  cases hf with
  | cons h5 hf =>
  cases hf with
  | cons h6 hf =>
  cases hf with
  | cons h7 hf =>
  cases hf with
  | cons h8 hf =>
  cases hf with
  | cons h9 hf =>
  have hW := segOk_star_inv h1
  have hb := segOk_lit_inv h2
  have hc := segOk_lit_inv h3
  have hsp := segOk_star_inv h4
  obtain ⟨m0, rfl, hm0⟩ := segOk_one_inv h5
  have hm' := segOk_star_inv h6
  have hg := segOk_lit_inv h7
  obtain ⟨k0, rfl, _⟩ := segOk_one_inv h8
  refine ⟨a, d, m0 :: f, k0 :: (j ++ r), ?_, hW, hsp, by simp, ?_, by simp⟩
  · subst hb
    subst hc
    subst hg
    rw [hj]
    simp [colonData]
  · intro x hx
    rcases List.mem_cons.mp hx with rfl | hx'
    · exact hm0
    · exact hm' x hx'

theorem anchorAt_isSome (u : Str) (h : AnchorAt u) :
    (matchSeq nodePieces u).isSome = true := by
  obtain ⟨W, sp, m, k, rfl, hW, hsp, hmne, hmnl, hkne⟩ := h
  obtain ⟨m0, m', rfl⟩ := List.exists_cons_of_ne_nil hmne
  obtain ⟨k0, k', rfl⟩ := List.exists_cons_of_ne_nil hkne
  have hf : List.Forall₂ SegOk nodePieces
      [W, "Error".data, ":".data, sp, [m0], m', "\n".data, [k0], k'] := by
    rw [nodePieces]
    refine List.Forall₂.cons (SegOk.star hW) ?_
    refine List.Forall₂.cons (SegOk.lit _) ?_
    refine List.Forall₂.cons (SegOk.lit _) ?_
    refine List.Forall₂.cons (SegOk.star hsp) ?_
    refine List.Forall₂.cons (SegOk.one (hmnl m0 (by simp))) ?_
    refine List.Forall₂.cons (SegOk.star (fun c hc => hmnl c (by simp [hc]))) ?_
    refine List.Forall₂.cons (SegOk.lit _) ?_
    refine List.Forall₂.cons (SegOk.one (rfl : anyChar k0 = true)) ?_
    exact List.Forall₂.cons (SegOk.star (fun c _ => rfl)) List.Forall₂.nil
  have hms := matchSeq_complete nodePieces _ hf eos_not_mem_nodePieces []
  have hshape : (([W, "Error".data, ":".data, sp, [m0], m', "\n".data, [k0],
      k'] : List Str).flatten ++ []) =
      W ++ "Error".data ++ ':' :: sp ++ (m0 :: m') ++ '\n' :: (k0 :: k') := by
    simp [colonData]
  rw [hshape] at hms
  exact hms

/-- The spec-side anchored line form is exactly what the anchor pattern
accepts at a given position. -/
theorem anchorAt_iff (u : Str) :
    AnchorAt u ↔ (matchSeq nodePieces u).isSome = true := by
  constructor
  · exact anchorAt_isSome u
  · intro h
    obtain ⟨pr, hpr⟩ := Option.isSome_iff_exists.mp h
    exact anchorAt_of_matchSeq u pr hpr

